import Mathlib

/-!
Verification of the Clojure batch-refactoring script
(prompts/scripts/refactor_clojure.py).

Strings are modelled as lists of characters (`Str`).  The Python string
operations the script uses (split, replace, strip, and the fenced-block
regular expression) are given executable embeddings, and the per-file
processing step is modelled as a pure function from the model reply to
the set of file writes it performs.  Recursive scanners are written with
an explicit fuel argument equal to the input length, which is always
sufficient because every step consumes at least one character; this
keeps every definition reducible by the kernel.
-/

namespace RefactorClojure

/-- Python strings, modelled as lists of characters. -/
abbrev Str := List Char

/-- The backtick character (used instead of a character literal). -/
def btick : Char := Char.ofNat 96

/-- Whitespace characters removed by Python str.strip (ASCII subset). -/
def isPySpace (c : Char) : Bool :=
  c == ' ' || c == '\t' || c == '\n' || c == '\r' || c == '\x0b' || c == '\x0c'

/-- Python str.strip: remove leading and trailing whitespace. -/
def pyStrip (s : Str) : Str :=
  ((s.dropWhile isPySpace).reverse.dropWhile isPySpace).reverse

/-- Test whether s begins with pat. -/
def startsWith (pat s : Str) : Bool :=
  s.take pat.length == pat

/-- Test whether pat occurs as a contiguous substring of s. -/
def containsSub (pat : Str) : Str → Bool
  | [] => pat.isEmpty
  | c :: rest => startsWith pat (c :: rest) || containsSub pat rest

/-- Split off the part of s that precedes the first occurrence of pat,
returning it together with the remainder that follows the occurrence.
Yields none when pat (assumed nonempty) does not occur in s. -/
def splitFirst (pat : Str) : Str → Option (Str × Str)
  | [] => none
  | c :: rest =>
    if startsWith pat (c :: rest) then some ([], rest.drop (pat.length - 1))
    else
      match splitFirst pat rest with
      | none => none
      | some (pre, post) => some (c :: pre, post)

theorem splitFirst_some_lt (pat : Str) :
    ∀ s pre post, splitFirst pat s = some (pre, post) → post.length < s.length := by
  intro s
  induction s with
  | nil => intro pre post h; simp [splitFirst] at h
  | cons c rest ih =>
    intro pre post h
    by_cases hc : startsWith pat (c :: rest) = true
    · simp only [splitFirst, hc, if_true] at h
      obtain ⟨h1, h2⟩ := Prod.mk.injEq .. ▸ Option.some.injEq .. ▸ h
      subst h2
      have : (rest.drop (pat.length - 1)).length ≤ rest.length := by
        simp [List.length_drop]
      simp only [List.length_cons]
      omega
    · simp only [splitFirst, hc, if_false, Bool.false_eq_true] at h
      cases hsp : splitFirst pat rest with
      | none => rw [hsp] at h; simp at h
      | some pr =>
        obtain ⟨pre2, post2⟩ := pr
        rw [hsp] at h
        simp only [Option.some.injEq, Prod.mk.injEq] at h
        obtain ⟨h1, h2⟩ := h
        subst h2
        have := ih pre2 post2 hsp
        simp only [List.length_cons]
        omega

theorem splitFirst_eq_none_iff (pat : Str) (hp : pat ≠ []) :
    ∀ s, splitFirst pat s = none ↔ containsSub pat s = false := by
  intro s
  induction s with
  | nil =>
    simp [splitFirst, containsSub, List.isEmpty_iff, hp]
  | cons c rest ih =>
    by_cases hc : startsWith pat (c :: rest) = true
    · simp [splitFirst, hc, containsSub]
    · have hc' : startsWith pat (c :: rest) = false := by
        simp only [Bool.eq_false_iff]; exact hc
      cases hsp : splitFirst pat rest with
      | none =>
        simp [splitFirst, hc', hsp, containsSub, ih.mp hsp]
      | some pr =>
        obtain ⟨pre, post⟩ := pr
        have hct : containsSub pat rest = true := by
          rcases Bool.eq_false_or_eq_true (containsSub pat rest) with h | h
          · exact h
          · exact absurd (ih.mpr h) (by simp [hsp])
        simp [splitFirst, hc', hsp, containsSub, hct]

/-! ### Summary extraction (extract_changes_summary) -/

/-- The marker on which extract_changes_summary splits the reply. -/
def sepClj : Str := "```clojure".toList

/-- Python str.split for a nonempty separator, with explicit fuel. -/
def pySplitGo (sep : Str) : Nat → Str → List Str
  | 0, s => [s]
  | fuel + 1, s =>
    match splitFirst sep s with
    | none => [s]
    | some (pre, post) => pre :: pySplitGo sep fuel post

/-- Python s.split(sep) for a nonempty separator sep. -/
def pySplit (sep s : Str) : List Str :=
  pySplitGo sep s.length s

/-- extract_changes_summary: split the reply on the marker and return the
first part, stripped; the guard on a nonempty part list mirrors the
Python code, whose split always yields at least one part. -/
def extract_changes_summary (response_text : Str) : Str :=
  match pySplit sepClj response_text with
  | p :: _ => pyStrip p
  | [] => []

theorem extract_changes_summary_eq (s : Str) :
    extract_changes_summary s =
      match splitFirst sepClj s with
      | none => pyStrip s
      | some (pre, _) => pyStrip pre := by
  unfold extract_changes_summary pySplit
  cases s with
  | nil => simp [pySplitGo, splitFirst]
  | cons c rest =>
    simp only [List.length_cons, pySplitGo]
    cases h : splitFirst sepClj (c :: rest) with
    | none => simp
    | some pr => obtain ⟨pre, post⟩ := pr; simp

/-- C1 (counterexample): a reply that contains no occurrence of the
fenced-block opening marker, on which extract_changes_summary returns the
nonempty reply itself rather than the empty string. -/
theorem summary_no_marker_not_empty :
    containsSub sepClj ("hello".toList) = false ∧
    extract_changes_summary ("hello".toList) = "hello".toList ∧
    "hello".toList ≠ ([] : Str) := by
  refine ⟨by decide, by decide, by decide⟩

/-- C1 (amended): extract_changes_summary returns the whole reply stripped
of surrounding whitespace when the opening marker does not occur in it
(so the empty string only for all-whitespace replies), and the text
preceding the first occurrence of the marker, stripped, when it does. -/
theorem summary_before_first_marker (s : Str) :
    (containsSub sepClj s = false → extract_changes_summary s = pyStrip s) ∧
    (∀ pre post, splitFirst sepClj s = some (pre, post) →
      extract_changes_summary s = pyStrip pre) := by
  constructor
  · intro h
    have hn : splitFirst sepClj s = none :=
      (splitFirst_eq_none_iff sepClj (by decide) s).mpr h
    rw [extract_changes_summary_eq, hn]
  · intro pre post h
    rw [extract_changes_summary_eq, h]

theorem summary_before_first_marker_witness :
    extract_changes_summary ("hi ```clojure rest".toList) =
      pyStrip ("hi ".toList) :=
  (summary_before_first_marker _).2 ("hi ".toList) (" rest".toList) (by decide)

/-! ### Code extraction (extract_code_from_response) -/

/-- Opening marker of the regular expression used by the script. -/
def openFence : Str := "```clojure\n".toList

/-- Closing marker of the regular expression used by the script. -/
def closeFence : Str := "```".toList

/-- One match of the fenced-block pattern: the capture between the first
occurrence of the opening marker and the first occurrence of the closing
marker after it, together with the remainder of the input.  When an
opening marker is never closed no further match exists, because the
pattern has no self-overlap and any later opening marker would itself
supply a closing occurrence. -/
def extractStep (s : Str) : Option (Str × Str) :=
  (splitFirst openFence s).bind (fun pr => splitFirst closeFence pr.2)

/-- All captures of re.findall for the fenced-block pattern, with
explicit fuel. -/
def extractBlocksGo : Nat → Str → List Str
  | 0, _ => []
  | fuel + 1, s =>
    match extractStep s with
    | none => []
    | some (code, rest2) => code :: extractBlocksGo fuel rest2

/-- All fenced-block captures of the reply, in order. -/
def extractBlocks (s : Str) : List Str := extractBlocksGo s.length s

/-- extract_code_from_response: the last fenced-block capture, stripped,
or none when there is no capture. -/
def extract_code_from_response (response_text : Str) : Option Str :=
  match (extractBlocks response_text).getLast? with
  | some m => some (pyStrip m)
  | none => none

theorem extractStep_some_lt (s code rest2 : Str)
    (h : extractStep s = some (code, rest2)) : rest2.length + 1 < s.length := by
  unfold extractStep at h
  cases ho : splitFirst openFence s with
  | none => rw [ho] at h; simp at h
  | some pr =>
    obtain ⟨pre, mid⟩ := pr
    rw [ho] at h
    simp only [Option.some_bind] at h
    have l1 := splitFirst_some_lt openFence s pre mid ho
    have l2 := splitFirst_some_lt closeFence mid code rest2 h
    omega

theorem extractBlocksGo_congr :
    ∀ f1 f2 s, s.length ≤ f1 → s.length ≤ f2 →
      extractBlocksGo f1 s = extractBlocksGo f2 s := by
  intro f1
  induction f1 with
  | zero =>
    intro f2 s h1 h2
    have hs : s = [] := List.length_eq_zero.mp (Nat.le_zero.mp h1)
    subst hs
    cases f2 with
    | zero => rfl
    | succ g => simp [extractBlocksGo, extractStep, splitFirst]
  | succ f ih =>
    intro f2 s h1 h2
    cases f2 with
    | zero =>
      have hs : s = [] := List.length_eq_zero.mp (Nat.le_zero.mp h2)
      subst hs
      simp [extractBlocksGo, extractStep, splitFirst]
    | succ g =>
      simp only [extractBlocksGo]
      cases hE : extractStep s with
      | none => rfl
      | some pr =>
        obtain ⟨code, rest2⟩ := pr
        have hlt := extractStep_some_lt s code rest2 hE
        show code :: extractBlocksGo f rest2 = code :: extractBlocksGo g rest2
        rw [ih g rest2 (by omega) (by omega)]

theorem extractBlocks_step (s : Str) :
    extractBlocks s =
      match extractStep s with
      | none => []
      | some (code, rest2) => code :: extractBlocks rest2 := by
  unfold extractBlocks
  cases hE : extractStep s with
  | none =>
    cases s with
    | nil => rfl
    | cons c rest =>
      simp only [List.length_cons, extractBlocksGo, hE]
  | some pr =>
    obtain ⟨code, rest2⟩ := pr
    have hlt := extractStep_some_lt s code rest2 hE
    cases s with
    | nil => simp at hlt
    | cons c rest =>
      simp only [List.length_cons, extractBlocksGo, hE]
      show code :: extractBlocksGo rest.length rest2 = code :: extractBlocksGo rest2.length rest2
      rw [extractBlocksGo_congr rest.length rest2.length rest2
        (by simp at hlt; omega) (le_refl _)]

/-- C4: extract_code_from_response returns none when the reply has no
fenced-block capture, and the last capture stripped of surrounding
whitespace when at least one exists. -/
theorem extract_code_last_block (s : Str) :
    (extractBlocks s = [] → extract_code_from_response s = none) ∧
    (∀ bs b, extractBlocks s = bs ++ [b] →
      extract_code_from_response s = some (pyStrip b)) := by
  constructor
  · intro h
    unfold extract_code_from_response
    rw [h]
    rfl
  · intro bs b h
    unfold extract_code_from_response
    rw [h, List.getLast?_concat]

theorem extract_code_last_block_witness :
    extract_code_from_response
        ("one ```clojure\nfirst\n``` two ```clojure\nsecond\n``` tail".toList) =
      some (pyStrip ("second\n".toList)) :=
  (extract_code_last_block _).2 ["first\n".toList] ("second\n".toList) (by decide)

/-! ### Prompt building (build_prompt) -/

/-- Python str.replace for a nonempty pattern: replace every occurrence,
scanning left to right without overlap, with explicit fuel. -/
def replGo (pat repl : Str) : Nat → Str → Str
  | 0, s => s
  | _ + 1, [] => []
  | fuel + 1, c :: rest =>
    if startsWith pat (c :: rest) then
      repl ++ replGo pat repl fuel (rest.drop (pat.length - 1))
    else c :: replGo pat repl fuel rest

/-- Python s.replace(pat, repl) for a nonempty pattern pat. -/
def pyReplace (s pat repl : Str) : Str := replGo pat repl s.length s

/-- The file-path placeholder of the template. -/
def pathPh : Str := "\x7b\x7bFILE_PATH\x7d\x7d".toList

/-- The file-content placeholder of the template. -/
def contentPh : Str := "\x7b\x7bFILE_CONTENT\x7d\x7d".toList

/-- build_prompt: substitute the path placeholder, then the content
placeholder. -/
def build_prompt (template file_path file_content : Str) : Str :=
  pyReplace (pyReplace template pathPh file_path) contentPh file_content

/-- The same two substitutions performed in the reverse order, used to
state order-independence. -/
def build_prompt_swapped (template file_path file_content : Str) : Str :=
  pyReplace (pyReplace template contentPh file_content) pathPh file_path

/-- C2 (counterexample): substitution order can change the result: when
the template is the path placeholder and the substituted path is the
content placeholder, path-first substitution also replaces the content
placeholder it just inserted, while content-first substitution does not. -/
theorem build_prompt_order_dependent :
    build_prompt pathPh contentPh ("X".toList) ≠
      build_prompt_swapped pathPh contentPh ("X".toList) := by decide

/-- C2 (amended): build_prompt is a pure deterministic function of its
three inputs, but the two placeholder substitutions do not commute in
general; the script performs them in a fixed order, path placeholder
first. -/
theorem build_prompt_deterministic_fixed_order :
    (∀ t₁ t₂ p₁ p₂ c₁ c₂ : Str, t₁ = t₂ → p₁ = p₂ → c₁ = c₂ →
      build_prompt t₁ p₁ c₁ = build_prompt t₂ p₂ c₂) ∧
    (∃ t p c : Str, build_prompt t p c ≠ build_prompt_swapped t p c) := by
  constructor
  · intro t₁ t₂ p₁ p₂ c₁ c₂ ht hp hc
    subst ht; subst hp; subst hc; rfl
  · exact ⟨pathPh, contentPh, "Y".toList, by decide⟩

theorem build_prompt_deterministic_fixed_order_witness :
    build_prompt ("T".toList) ("p".toList) ("c".toList) =
      build_prompt ("T".toList) ("p".toList) ("c".toList) :=
  build_prompt_deterministic_fixed_order.1 _ _ _ _ _ _ rfl rfl rfl

/-! ### Output-path computation (refactor_file) -/

/-- A pathlib path: an absolute flag plus name components. -/
structure PyPath where
  isAbs : Bool
  comps : List Str
deriving DecidableEq

/-- Path.name: the final component (empty for an empty path). -/
def pathNameOf (p : PyPath) : Str := p.comps.getLastD []

/-- Index of the last dot in a name, as in str.rfind. -/
def lastDotIdx (name : Str) : Option Nat :=
  match name.reverse.findIdx? (fun c => c == '.') with
  | none => none
  | some j => some (name.length - 1 - j)

/-- Path.suffix: the extension from the last dot, empty when the last dot
is leading, trailing, or absent. -/
def nameSuffix (name : Str) : Str :=
  match lastDotIdx name with
  | none => []
  | some i => if 0 < i ∧ i + 1 < name.length then name.drop i else []

/-- Path.stem: the final component without its suffix. -/
def nameStem (name : Str) : Str :=
  name.take (name.length - (nameSuffix name).length)

/-- The relative path mirrored under the output root: the path itself if
relative, the part after the working directory if absolute under it, and
the bare file name otherwise. -/
def outputRelPath (cwd : List Str) (p : PyPath) : List Str :=
  if p.isAbs then
    if p.comps.take cwd.length = cwd then p.comps.drop cwd.length
    else [pathNameOf p]
  else p.comps

/-- The output path for the refactored body of an input file. -/
def outputPathFor (cwd out : List Str) (p : PyPath) : List Str :=
  out ++ outputRelPath cwd p

/-- The debug-artifact path for an input file: stem plus a fixed tail,
directly under the output root. -/
def debugPathFor (out : List Str) (p : PyPath) : List Str :=
  out ++ [nameStem (pathNameOf p) ++ "_debug.txt".toList]

/-- C3 (counterexample): two distinct discovered inputs can share a
debug-artifact path (equal stems), and two distinct absolute inputs
outside the working directory can share an output path (equal names). -/
theorem output_paths_can_collide :
    (PyPath.mk false ["a".toList, "core.clj".toList] ≠
        PyPath.mk false ["b".toList, "core.clj".toList] ∧
      debugPathFor ["refactored".toList]
          (PyPath.mk false ["a".toList, "core.clj".toList]) =
        debugPathFor ["refactored".toList]
          (PyPath.mk false ["b".toList, "core.clj".toList])) ∧
    (PyPath.mk true ["x".toList, "main.clj".toList] ≠
        PyPath.mk true ["y".toList, "main.clj".toList] ∧
      outputPathFor ["home".toList] ["refactored".toList]
          (PyPath.mk true ["x".toList, "main.clj".toList]) =
        outputPathFor ["home".toList] ["refactored".toList]
          (PyPath.mk true ["y".toList, "main.clj".toList])) := by
  refine ⟨⟨by decide, by decide⟩, by decide, by decide⟩

/-- C3 (amended): distinct relative input paths, and distinct absolute
input paths lying under the working directory, map to distinct output
paths; the claimed uniqueness fails in general for debug-artifact paths
(computed from the stem alone) and for absolute inputs outside the
working directory (which fall back to the bare file name). -/
theorem output_path_injective_on_relative (cwd out : List Str) (p₁ p₂ : PyPath) :
    (p₁.isAbs = false → p₂.isAbs = false → p₁.comps ≠ p₂.comps →
      outputPathFor cwd out p₁ ≠ outputPathFor cwd out p₂) ∧
    (p₁.isAbs = true → p₂.isAbs = true →
      p₁.comps.take cwd.length = cwd → p₂.comps.take cwd.length = cwd →
      p₁.comps ≠ p₂.comps →
      outputPathFor cwd out p₁ ≠ outputPathFor cwd out p₂) := by
  constructor
  · intro h1 h2 hne
    simp only [outputPathFor, outputRelPath, h1, h2, Bool.false_eq_true, if_false]
    intro h
    exact hne (List.append_cancel_left h)
  · intro h1 h2 ht1 ht2 hne
    simp only [outputPathFor, outputRelPath, h1, h2, if_true, ht1, ht2]
    intro h
    have hdrop : p₁.comps.drop cwd.length = p₂.comps.drop cwd.length :=
      List.append_cancel_left h
    apply hne
    calc p₁.comps = p₁.comps.take cwd.length ++ p₁.comps.drop cwd.length :=
          (List.take_append_drop cwd.length p₁.comps).symm
      _ = p₂.comps.take cwd.length ++ p₂.comps.drop cwd.length := by
          rw [ht1, ht2, hdrop]
      _ = p₂.comps := List.take_append_drop cwd.length p₂.comps

theorem output_path_injective_on_relative_witness :
    outputPathFor ["home".toList] ["out".toList]
        (PyPath.mk false ["a".toList, "f.clj".toList]) ≠
      outputPathFor ["home".toList] ["out".toList]
        (PyPath.mk false ["b".toList, "f.clj".toList]) :=
  (output_path_injective_on_relative ["home".toList] ["out".toList]
      (PyPath.mk false ["a".toList, "f.clj".toList])
      (PyPath.mk false ["b".toList, "f.clj".toList])).1 rfl rfl (by decide)

/-! ### Per-file parse-and-write step (refactor_file after the model call) -/

/-- Join path components with slashes. -/
def joinComps : List Str → Str
  | [] => []
  | [c] => c
  | c :: rest => c ++ '/' :: joinComps rest

/-- str(path): slash-joined components, with a leading slash if absolute. -/
def pathStr (p : PyPath) : Str :=
  if p.isAbs then '/' :: joinComps p.comps else joinComps p.comps

/-- The one-line header written at the top of a summary file. -/
def headerFor (p : PyPath) : Str :=
  "# Changes for ".toList ++ pathStr p ++ "\n\n".toList

/-- Path.with_suffix(".changes.md") applied to the output path. -/
def withSuffixChanges (path : List Str) : List Str :=
  path.dropLast ++ [nameStem (path.getLastD []) ++ ".changes.md".toList]

/-- The file writes performed while processing one reply. -/
structure RefactorResult where
  success : Bool
  outputWrite : Option (List Str × Str)
  summaryWrite : Option (List Str × Str)
  debugWrite : Option (List Str × Str)
deriving DecidableEq

/-- The parse-and-write tail of refactor_file, as a function from the
model reply to the writes performed.  The two failure arms mirror the
Python truthiness test, which treats both None and the empty string as
missing code. -/
def process_response (cwd out : List Str) (p : PyPath) (response : Str) :
    RefactorResult :=
  match extract_code_from_response response with
  | none =>
    { success := false, outputWrite := none, summaryWrite := none,
      debugWrite := some (debugPathFor out p, response) }
  | some code =>
    if code = [] then
      { success := false, outputWrite := none, summaryWrite := none,
        debugWrite := some (debugPathFor out p, response) }
    else
      { success := true,
        outputWrite := some (outputPathFor cwd out p, code ++ ['\n']),
        summaryWrite :=
          if extract_changes_summary response = [] then none
          else some (withSuffixChanges (outputPathFor cwd out p),
            headerFor p ++ extract_changes_summary response),
        debugWrite := none }

theorem splitFirst_boundary (p0 : Char) (pt R : Str) :
    ∀ S : Str, (∀ a ∈ S, a ≠ p0) →
      splitFirst (p0 :: pt) (S ++ (p0 :: pt) ++ R) = some (S, R) := by
  intro S
  induction S with
  | nil =>
    intro _
    show splitFirst (p0 :: pt) (p0 :: (pt ++ R)) = some ([], R)
    have hsw : startsWith (p0 :: pt) (p0 :: (pt ++ R)) = true := by
      simp [startsWith, List.take_left]
    simp only [splitFirst, hsw, if_true, List.length_cons]
    simp [List.drop_left]
  | cons a S' ih =>
    intro h
    have ha : a ≠ p0 := h a (List.mem_cons_self a S')
    have h' : ∀ b ∈ S', b ≠ p0 := fun b hb => h b (List.mem_cons_of_mem a hb)
    show splitFirst (p0 :: pt) (a :: (S' ++ (p0 :: pt) ++ R)) = some (a :: S', R)
    have hsw : startsWith (p0 :: pt) (a :: (S' ++ (p0 :: pt) ++ R)) = false := by
      simp only [startsWith, List.length_cons, List.take_succ_cons]
      rw [beq_eq_false_iff_ne]
      intro hcontra
      injection hcontra with hh _
      exact ha hh
    simp only [splitFirst, hsw, Bool.false_eq_true, if_false]
    rw [ih h']

theorem extractBlocks_single (S T : Str)
    (hS : ∀ a ∈ S, a ≠ btick) (hT : ∀ a ∈ T, a ≠ btick) :
    extractBlocks (S ++ openFence ++ T ++ closeFence) = [T] := by
  have hopen : openFence = btick :: "``clojure\n".toList := by decide
  have hclose : closeFence = btick :: "``".toList := by decide
  have h1 : splitFirst openFence (S ++ openFence ++ T ++ closeFence) =
      some (S, T ++ closeFence) := by
    have := splitFirst_boundary btick ("``clojure\n".toList)
      (T ++ closeFence) S hS
    rw [hopen]
    calc splitFirst (btick :: "``clojure\n".toList)
          (S ++ (btick :: "``clojure\n".toList) ++ T ++ closeFence)
        = splitFirst (btick :: "``clojure\n".toList)
          (S ++ (btick :: "``clojure\n".toList) ++ (T ++ closeFence)) := by
          rw [List.append_assoc (S ++ (btick :: "``clojure\n".toList)) T closeFence]
      _ = some (S, T ++ closeFence) := this
  have h2 : splitFirst closeFence (T ++ closeFence) = some (T, []) := by
    have := splitFirst_boundary btick ("``".toList) [] T hT
    rw [hclose]
    calc splitFirst (btick :: "``".toList) (T ++ (btick :: "``".toList))
        = splitFirst (btick :: "``".toList) (T ++ (btick :: "``".toList) ++ []) := by
          rw [List.append_nil]
      _ = some (T, []) := this
  have hstep : extractStep (S ++ openFence ++ T ++ closeFence) = some (T, []) := by
    unfold extractStep
    rw [h1]
    simpa using h2
  rw [extractBlocks_step, hstep]
  rfl

theorem process_response_of_some (cwd out : List Str) (p : PyPath)
    (response code : Str)
    (hx : extract_code_from_response response = some code) (hc : code ≠ []) :
    process_response cwd out p response =
      { success := true,
        outputWrite := some (outputPathFor cwd out p, code ++ ['\n']),
        summaryWrite :=
          if extract_changes_summary response = [] then none
          else some (withSuffixChanges (outputPathFor cwd out p),
            headerFor p ++ extract_changes_summary response),
        debugWrite := none } := by
  unfold process_response
  rw [hx]
  simp [hc]

/-- C6 (counterexample): for a reply whose single fenced block contains
the text " x \n" (with surrounding whitespace), the written body is the
stripped text plus one newline, not the block text plus one newline. -/
theorem writer_strips_code :
    (process_response [] ["o".toList] (PyPath.mk false ["f.clj".toList])
        ("Did stuff.```clojure\n x \n```".toList)).outputWrite =
      some (["o".toList, "f.clj".toList], "x\n".toList) ∧
    ("x\n".toList : Str) ≠ " x \n".toList ++ ['\n'] := by
  refine ⟨by decide, by decide⟩

/-- C6 (amended): for a reply made of backtick-free narration S followed
by one fenced block with backtick-free body T whose stripped form is
nonempty, the writer writes strip(T) followed by exactly one newline to
the mirrored output path, writes no debug artifact, and writes a summary
file containing the header plus strip(S) exactly when strip(S) is
nonempty. -/
theorem writer_output_shape (cwd out : List Str) (p : PyPath) (S T : Str)
    (hS : ∀ a ∈ S, a ≠ btick) (hT : ∀ a ∈ T, a ≠ btick)
    (hTs : pyStrip T ≠ []) :
    ((process_response cwd out p (S ++ openFence ++ T ++ closeFence)).success =
        true ∧
      (process_response cwd out p (S ++ openFence ++ T ++ closeFence)).outputWrite =
        some (outputPathFor cwd out p, pyStrip T ++ ['\n']) ∧
      (process_response cwd out p (S ++ openFence ++ T ++ closeFence)).debugWrite =
        none) ∧
    (pyStrip S = [] →
      (process_response cwd out p (S ++ openFence ++ T ++ closeFence)).summaryWrite =
        none) ∧
    (pyStrip S ≠ [] →
      (process_response cwd out p (S ++ openFence ++ T ++ closeFence)).summaryWrite =
        some (withSuffixChanges (outputPathFor cwd out p),
          headerFor p ++ pyStrip S)) := by
  have hb := extractBlocks_single S T hS hT
  have hx : extract_code_from_response (S ++ openFence ++ T ++ closeFence) =
      some (pyStrip T) := by
    unfold extract_code_from_response
    rw [hb]
    rfl
  have hfence : openFence = (btick :: "``clojure".toList) ++ ['\n'] := by decide
  have hsep : sepClj = btick :: "``clojure".toList := by decide
  have hshape : S ++ openFence ++ T ++ closeFence =
      S ++ (btick :: "``clojure".toList) ++ ('\n' :: (T ++ closeFence)) := by
    rw [hfence]
    simp [List.append_assoc]
  have hsplit : splitFirst sepClj (S ++ openFence ++ T ++ closeFence) =
      some (S, '\n' :: (T ++ closeFence)) := by
    rw [hshape, hsep]
    exact splitFirst_boundary btick ("``clojure".toList)
      ('\n' :: (T ++ closeFence)) S hS
  have hsum : extract_changes_summary (S ++ openFence ++ T ++ closeFence) =
      pyStrip S := by
    rw [extract_changes_summary_eq, hsplit]
  have hmain := process_response_of_some cwd out p
    (S ++ openFence ++ T ++ closeFence) (pyStrip T) hx hTs
  rw [hmain]
  refine ⟨⟨rfl, rfl, rfl⟩, ?_, ?_⟩
  · intro hS0
    show (if extract_changes_summary (S ++ openFence ++ T ++ closeFence) = []
        then none
        else some (withSuffixChanges (outputPathFor cwd out p),
          headerFor p ++ extract_changes_summary (S ++ openFence ++ T ++ closeFence)))
      = (none : Option (List Str × Str))
    rw [hsum, if_pos hS0]
  · intro hS1
    show (if extract_changes_summary (S ++ openFence ++ T ++ closeFence) = []
        then none
        else some (withSuffixChanges (outputPathFor cwd out p),
          headerFor p ++ extract_changes_summary (S ++ openFence ++ T ++ closeFence)))
      = some (withSuffixChanges (outputPathFor cwd out p), headerFor p ++ pyStrip S)
    rw [hsum, if_neg hS1]

theorem writer_output_shape_witness :
    ((process_response [] ["o".toList] (PyPath.mk false ["f.clj".toList])
        ("Did things.".toList ++ openFence ++ "body\n".toList ++ closeFence)).success =
        true ∧
      (process_response [] ["o".toList] (PyPath.mk false ["f.clj".toList])
        ("Did things.".toList ++ openFence ++ "body\n".toList ++ closeFence)).outputWrite =
        some (outputPathFor [] ["o".toList] (PyPath.mk false ["f.clj".toList]),
          pyStrip ("body\n".toList) ++ ['\n']) ∧
      (process_response [] ["o".toList] (PyPath.mk false ["f.clj".toList])
        ("Did things.".toList ++ openFence ++ "body\n".toList ++ closeFence)).debugWrite =
        none) ∧
    (pyStrip ("Did things.".toList) = [] →
      (process_response [] ["o".toList] (PyPath.mk false ["f.clj".toList])
        ("Did things.".toList ++ openFence ++ "body\n".toList ++ closeFence)).summaryWrite =
        none) ∧
    (pyStrip ("Did things.".toList) ≠ [] →
      (process_response [] ["o".toList] (PyPath.mk false ["f.clj".toList])
        ("Did things.".toList ++ openFence ++ "body\n".toList ++ closeFence)).summaryWrite =
        some (withSuffixChanges (outputPathFor [] ["o".toList]
            (PyPath.mk false ["f.clj".toList])),
          headerFor (PyPath.mk false ["f.clj".toList]) ++ pyStrip ("Did things.".toList))) :=
  writer_output_shape [] ["o".toList] (PyPath.mk false ["f.clj".toList])
    ("Did things.".toList) ("body\n".toList) (by decide) (by decide) (by decide)

/-- C9: when no fenced block is found in the reply, processing reports
failure and the only write is the debug artifact, holding the untouched
reply, directly under the output root; the model of the step performs no
removal. -/
theorem no_code_writes_debug (cwd out : List Str) (p : PyPath) (response : Str)
    (h : extract_code_from_response response = none) :
    process_response cwd out p response =
      { success := false, outputWrite := none, summaryWrite := none,
        debugWrite := some (debugPathFor out p, response) } := by
  unfold process_response
  rw [h]

theorem no_code_writes_debug_witness :
    process_response [] ["o".toList] (PyPath.mk false ["f.clj".toList])
        ("no code here".toList) =
      { success := false, outputWrite := none, summaryWrite := none,
        debugWrite := some (debugPathFor ["o".toList]
          (PyPath.mk false ["f.clj".toList]), "no code here".toList) } :=
  no_code_writes_debug [] ["o".toList] (PyPath.mk false ["f.clj".toList])
    ("no code here".toList) (by decide)

theorem dropWhile_eq_nil_of_all (p : Char → Bool) :
    ∀ l : Str, (∀ x ∈ l, p x = true) → l.dropWhile p = [] := by
  intro l
  induction l with
  | nil => intro _; rfl
  | cons c rest ih =>
    intro h
    have hc : p c = true := h c (List.mem_cons_self c rest)
    simp only [List.dropWhile, hc]
    exact ih (fun x hx => h x (List.mem_cons_of_mem c hx))

theorem pyStrip_eq_nil_of_all_space (b : Str)
    (h : ∀ x ∈ b, isPySpace x = true) : pyStrip b = [] := by
  unfold pyStrip
  rw [dropWhile_eq_nil_of_all isPySpace b h]
  rfl

/-- C10: when the last fenced block exists but its body is entirely
whitespace, extraction yields the empty string and the step behaves
exactly like the no-block case: failure, debug artifact, no output and
no summary. -/
theorem blank_block_treated_as_failure (cwd out : List Str) (p : PyPath)
    (s b : Str) (hb : (extractBlocks s).getLast? = some b)
    (hw : ∀ x ∈ b, isPySpace x = true) :
    extract_code_from_response s = some [] ∧
    process_response cwd out p s =
      { success := false, outputWrite := none, summaryWrite := none,
        debugWrite := some (debugPathFor out p, s) } := by
  have hstrip : pyStrip b = [] := pyStrip_eq_nil_of_all_space b hw
  have hx : extract_code_from_response s = some [] := by
    unfold extract_code_from_response
    rw [hb]
    show some (pyStrip b) = some []
    rw [hstrip]
  refine ⟨hx, ?_⟩
  unfold process_response
  rw [hx]
  rfl

theorem blank_block_treated_as_failure_witness :
    extract_code_from_response ("```clojure\n \n```".toList) = some [] ∧
    process_response [] ["o".toList] (PyPath.mk false ["f.clj".toList])
        ("```clojure\n \n```".toList) =
      { success := false, outputWrite := none, summaryWrite := none,
        debugWrite := some (debugPathFor ["o".toList]
          (PyPath.mk false ["f.clj".toList]), "```clojure\n \n```".toList) } :=
  blank_block_treated_as_failure [] ["o".toList] (PyPath.mk false ["f.clj".toList])
    ("```clojure\n \n```".toList) (" \n".toList) (by decide) (by decide)

/-! ### File discovery (find_clojure_files) -/

/-- The target file extension. -/
def cljSuffix : Str := ".clj".toList

/-- Test whether s ends with pat. -/
def endsWith (pat s : Str) : Bool := startsWith pat.reverse s.reverse

/-- The final name component of a path given as components. -/
def pathLast (path : List Str) : Str := path.getLastD []

/-- A filesystem, as the list of paths of its regular files; directories
are the proper prefixes of file paths. -/
structure FileSystem where
  files : List (List Str)

/-- f lies directly inside dir. -/
def isDirectChild (dir f : List Str) : Bool :=
  f.take dir.length == dir && f.length == dir.length + 1

/-- f lies below dir, at any depth of at least one. -/
def isDescendant (dir f : List Str) : Bool :=
  f.take dir.length == dir && decide (dir.length < f.length)

/-- find_clojure_files: a file argument is returned alone when its suffix
is .clj and dropped otherwise; any other argument is globbed for names
matching *.clj, directly inside it or recursively below it. -/
def find_clojure_files (fs : FileSystem) (path : List Str) (recursive : Bool) :
    List (List Str) :=
  if path ∈ fs.files then
    if nameSuffix (pathLast path) = cljSuffix then [path] else []
  else if recursive then
    fs.files.filter (fun f => isDescendant path f && endsWith cljSuffix (pathLast f))
  else
    fs.files.filter (fun f => isDirectChild path f && endsWith cljSuffix (pathLast f))

/-- C5: a file argument yields exactly itself when its suffix matches and
nothing otherwise; for a non-file argument the non-recursive result
contains only matching files directly inside it, and the recursive
result is a superset of the non-recursive one. -/
theorem find_clojure_files_spec (fs : FileSystem) (path : List Str) :
    (∀ r, path ∈ fs.files → nameSuffix (pathLast path) = cljSuffix →
      find_clojure_files fs path r = [path]) ∧
    (∀ r, path ∈ fs.files → nameSuffix (pathLast path) ≠ cljSuffix →
      find_clojure_files fs path r = []) ∧
    (∀ f, f ∈ find_clojure_files fs path false →
      f ∈ find_clojure_files fs path true) ∧
    (path ∉ fs.files → ∀ f, f ∈ find_clojure_files fs path false →
      f ∈ fs.files ∧ isDirectChild path f = true ∧
        endsWith cljSuffix (pathLast f) = true) := by
  refine ⟨?_, ?_, ?_, ?_⟩
  · intro r hmem hsuf
    simp [find_clojure_files, hmem, hsuf]
  · intro r hmem hsuf
    simp [find_clojure_files, hmem, hsuf]
  · intro f hf
    by_cases hmem : path ∈ fs.files
    · simpa [find_clojure_files, hmem] using
        (by simpa [find_clojure_files, hmem] using hf :
          f ∈ (if nameSuffix (pathLast path) = cljSuffix then [path] else []))
    · simp only [find_clojure_files, hmem, if_false] at hf ⊢
      rw [if_neg (by decide : ¬(false = true))] at hf
      rw [if_pos trivial]
      rw [List.mem_filter] at hf ⊢
      obtain ⟨hffs, hpred⟩ := hf
      rw [Bool.and_eq_true] at hpred
      obtain ⟨hchild, hsuf⟩ := hpred
      refine ⟨hffs, ?_⟩
      rw [Bool.and_eq_true]
      refine ⟨?_, hsuf⟩
      simp only [isDirectChild, Bool.and_eq_true, beq_iff_eq] at hchild
      simp only [isDescendant, Bool.and_eq_true, beq_iff_eq, decide_eq_true_eq]
      exact ⟨hchild.1, by omega⟩
  · intro hmem f hf
    simp only [find_clojure_files, hmem, if_false] at hf
    rw [if_neg (by decide : ¬(false = true))] at hf
    rw [List.mem_filter] at hf
    obtain ⟨hffs, hpred⟩ := hf
    rw [Bool.and_eq_true] at hpred
    exact ⟨hffs, hpred.1, hpred.2⟩

theorem find_clojure_files_spec_witness :
    find_clojure_files (FileSystem.mk [["core.clj".toList]])
        ["core.clj".toList] true = [["core.clj".toList]] :=
  (find_clojure_files_spec (FileSystem.mk [["core.clj".toList]])
      ["core.clj".toList]).1 true (by decide) (by decide)

/-! ### Driver loop and exit codes (main) -/

/-- The visible outcome of the body of refactor_file on one file: either
it runs to completion returning a success flag, or an exception escapes
to its handler. -/
inductive FileOutcome where
  | ok : Bool → FileOutcome
  | exn : FileOutcome
deriving DecidableEq

/-- The value refactor_file returns to the driver; the except handler
turns an escaped exception into a failure. -/
def refactor_file_result : FileOutcome → Bool
  | FileOutcome.ok b => b
  | FileOutcome.exn => false

/-- One step of the driver loop: bump the success or the error counter. -/
def tallyStep (acc : Nat × Nat) (o : FileOutcome) : Nat × Nat :=
  if refactor_file_result o then (acc.1 + 1, acc.2) else (acc.1, acc.2 + 1)

/-- The driver loop over all discovered files: (successes, errors). -/
def main_loop (outcomes : List FileOutcome) : Nat × Nat :=
  outcomes.foldl tallyStep (0, 0)

theorem main_loop_shift :
    ∀ (l : List FileOutcome) (a b : Nat),
      l.foldl tallyStep (a, b) = (a + (main_loop l).1, b + (main_loop l).2) := by
  intro l
  induction l with
  | nil => intro a b; simp [main_loop]
  | cons o rest ih =>
    intro a b
    have hm : main_loop (o :: rest) = rest.foldl tallyStep (tallyStep (0, 0) o) := by
      simp [main_loop]
    rw [List.foldl_cons, hm]
    cases hr : refactor_file_result o with
    | false =>
      simp only [tallyStep, hr, Bool.false_eq_true, if_false]
      rw [ih a (b + 1), ih 0 (0 + 1)]
      simp
      omega
    | true =>
      simp only [tallyStep, hr, if_true]
      rw [ih (a + 1) b, ih (0 + 1) 0]
      simp
      omega

/-- C7: the driver tally always satisfies successes + errors = number of
discovered files, and a file whose processing raises is counted as
exactly one extra failure while every other file is still processed. -/
theorem tally_counts_all_files :
    (∀ l : List FileOutcome, (main_loop l).1 + (main_loop l).2 = l.length) ∧
    (∀ xs ys : List FileOutcome,
      (main_loop (xs ++ FileOutcome.exn :: ys)).1 = (main_loop (xs ++ ys)).1 ∧
      (main_loop (xs ++ FileOutcome.exn :: ys)).2 =
        (main_loop (xs ++ ys)).2 + 1) := by
  constructor
  · intro l
    induction l with
    | nil => rfl
    | cons o rest ih =>
      have h1 : main_loop (o :: rest) = rest.foldl tallyStep (tallyStep (0, 0) o) := by
        simp [main_loop]
      rw [h1, main_loop_shift rest (tallyStep (0, 0) o).1 (tallyStep (0, 0) o).2]
      simp only [List.length_cons]
      cases hr : refactor_file_result o with
      | false => simp only [tallyStep, hr, Bool.false_eq_true, if_false]; omega
      | true => simp only [tallyStep, hr, if_true]; omega
  · intro xs ys
    have hx : main_loop (xs ++ FileOutcome.exn :: ys) =
        (FileOutcome.exn :: ys).foldl tallyStep (main_loop xs) := by
      simp [main_loop, List.foldl_append]
    have hy : main_loop (xs ++ ys) = ys.foldl tallyStep (main_loop xs) := by
      simp [main_loop, List.foldl_append]
    rw [hx, hy, List.foldl_cons]
    have hstep : tallyStep (main_loop xs) FileOutcome.exn =
        ((main_loop xs).1, (main_loop xs).2 + 1) := by
      simp [tallyStep, refactor_file_result]
    rw [hstep,
      main_loop_shift ys (main_loop xs).1 ((main_loop xs).2 + 1),
      main_loop_shift ys (main_loop xs).1 (main_loop xs).2]
    constructor
    · rfl
    · simp only []
      omega

/-- Arguments and environment of one run of main, after discovery. -/
structure MainArgs where
  pathExists : Bool
  templateExists : Bool
  dryRun : Bool
  outcomes : List FileOutcome

/-- The observable result of a run: the exit code and the per-file
results processed, in order. -/
structure MainTrace where
  exitCode : Nat
  processed : List Bool
deriving DecidableEq

/-- The control flow of main: validation, the empty-discovery and dry-run
early exits, and the processing loop; falling off the end of main exits
with code zero. -/
def main_model (a : MainArgs) : MainTrace :=
  if a.pathExists = false then { exitCode := 1, processed := [] }
  else if a.templateExists = false then { exitCode := 1, processed := [] }
  else if a.outcomes = [] then { exitCode := 0, processed := [] }
  else if a.dryRun = true then { exitCode := 0, processed := [] }
  else { exitCode := 0, processed := a.outcomes.map refactor_file_result }

/-- C8: missing input path or missing template exit with code 1 before
any file is processed; an empty discovery exits with code 0 after no
work; and in every other case, whatever the per-file outcomes, the exit
code is 0. -/
theorem main_exit_codes (a : MainArgs) :
    (a.pathExists = false → main_model a = { exitCode := 1, processed := [] }) ∧
    (a.templateExists = false →
      main_model a = { exitCode := 1, processed := [] }) ∧
    (a.pathExists = true → a.templateExists = true → a.outcomes = [] →
      main_model a = { exitCode := 0, processed := [] }) ∧
    ((main_model a).exitCode = 0 ∨ a.pathExists = false ∨
      a.templateExists = false) := by
  refine ⟨?_, ?_, ?_, ?_⟩
  · intro h; simp [main_model, h]
  · intro h
    unfold main_model
    by_cases hp : a.pathExists = false
    · simp [hp]
    · simp [hp, h]
  · intro hp ht ho
    simp [main_model, hp, ht, ho]
  · by_cases hp : a.pathExists = false
    · right; left; exact hp
    · by_cases ht : a.templateExists = false
      · right; right; exact ht
      · left
        unfold main_model
        rw [if_neg hp, if_neg ht]
        by_cases ho : a.outcomes = []
        · simp [ho]
        · by_cases hd : a.dryRun = true
          · simp [ho, hd]
          · simp [ho, hd]

theorem main_exit_codes_witness :
    main_model (MainArgs.mk true true false []) =
      { exitCode := 0, processed := [] } :=
  (main_exit_codes (MainArgs.mk true true false [])).2.2.1 rfl rfl rfl

end RefactorClojure
